import Mathlib

/-!
Shallow embedding of `src/refdb.cpp` (`referral::ReferralsViewDB`), the
persistent referral-graph storage layer: the referral tree store, the ANV
aggregator and the lottery reservoir.

Modelling choices, all taken from the source:
* `Address` (`CKeyID`, a fixed-size id) and `uint256` code hashes are modelled
  as `Nat`; the default-constructed sentinel `Address{}` is `0`.
* `CAmount` (a signed 64-bit integer) is modelled as `Int`; the claims under
  study never approach the 64-bit boundary.
* The key-value store is split per namespace tag, exactly the tags declared at
  the top of the file (`DB_REFERRALS`, `DB_PARENT_KEY`, `DB_CHILDREN`,
  `DB_ANV`, `DB_LOT_SIZE`, `DB_LOT_VAL`).  Point lookups are total functions
  into `Option`; a read of an absent key behaves like the C++ `m_db.Read`
  that leaves the default-constructed out-parameter in place.  The `DB_ANV`
  namespace is additionally kept as an association list in iterator order so
  that the full scans (`GetAllANVs` / `GetAllRewardableANVs`) can be stated.
* Writes and erases of the pure store always succeed, so the `return false`
  branches of the C++ that report a key-value engine failure are dead here and
  the corresponding operations are total.  `UpdateANV` keeps an `Option`
  result: `none` models a fatal `assert` firing (negative amount, or the
  `MAX_LEVELS` cycle guard).
* `WeightedKey` (`boost::multiprecision::float128`) enters the heap code only
  through comparisons, so the key domain is modelled as `Int`.
-/

/-- An ANV record as stored under the `DB_ANV` tag: the C++
`ANVTuple = std::tuple<char, Address, CAmount>` of address type, origin
address and amount.  A default-constructed tuple is zero-valued. -/
structure AnvRec where
  addressType : Nat
  origin : Nat
  amount : Int
deriving Repr, DecidableEq

/-- The zero-valued default `ANVTuple` that `m_db.Read` leaves in place when
the key is absent. -/
def defaultAnv : AnvRec := ⟨0, 0, 0⟩

/-- A referral record: code hash, public key id of the new address, code hash
of the inviter's referral, and the address type. -/
structure Referral where
  codeHash : Nat
  pubKeyId : Nat
  previousReferral : Nat
  addressType : Nat
deriving Repr, DecidableEq

/-- The `AddressANV` value returned by `GetANV` and the full scans: the C++
builds it from the stored tuple as `{type, origin, amount}` (note that the
`address` field is the stored origin address). -/
structure AddressANV where
  addressType : Nat
  address : Nat
  amount : Int
deriving Repr, DecidableEq

/-- The store state of `ReferralsViewDB`, one component per namespace tag. -/
structure RefState where
  referrals : Nat → Option Referral
  parent : Nat → Option Nat
  children : Nat → List Nat
  anv : List (Nat × AnvRec)
  lotSize : Option Nat
  lotVal : Nat → Option (Int × Nat)

/-- A freshly wiped store. -/
def emptyState : RefState :=
  { referrals := fun _ => none
    parent := fun _ => none
    children := fun _ => []
    anv := []
    lotSize := none
    lotVal := fun _ => none }

/-- Point lookup in the `DB_ANV` association list. -/
def anvLookup (k : Nat) : List (Nat × AnvRec) → Option AnvRec
  | [] => none
  | (k', v) :: rest => if k' = k then some v else anvLookup k rest

/-- Point write in the `DB_ANV` association list: overwrite in place, append
when the key is new. -/
def upsertAnv (k : Nat) (v : AnvRec) : List (Nat × AnvRec) → List (Nat × AnvRec)
  | [] => [(k, v)]
  | (k', v') :: rest =>
    if k' = k then (k, v) :: rest else (k', v') :: upsertAnv k v rest

/-- The ANV record read by `UpdateANV`: an absent key yields the zero-valued
default tuple. -/
def anvRead (s : RefState) (a : Nat) : AnvRec :=
  (anvLookup a s.anv).getD defaultAnv

/-- `m_db.Write(make_pair(DB_ANV, a), rec)`. -/
def writeANV (a : Nat) (rec : AnvRec) (s : RefState) : RefState :=
  { s with anv := upsertAnv a rec s.anv }

/-- `ReferralsViewDB::GetReferral`. -/
def GetReferral (s : RefState) (codeHash : Nat) : Option Referral :=
  s.referrals codeHash

/-- `ReferralsViewDB::GetReferrer`. -/
def GetReferrer (s : RefState) (address : Nat) : Option Nat :=
  s.parent address

/-- `ReferralsViewDB::GetChildren`: a failed read leaves the
default-constructed empty vector. -/
def GetChildren (s : RefState) (address : Nat) : List Nat :=
  s.children address

/-- `ReferralsViewDB::WalletIdExists`: `m_db.Exists` on the parent index. -/
def WalletIdExists (s : RefState) (address : Nat) : Bool :=
  (s.parent address).isSome

/-- The inviter resolution shared by `InsertReferral` and `RemoveReferral`:
`Address parent_address; if (auto p = GetReferral(prev)) parent_address =
p->pubKeyId;` — a miss leaves the default-constructed sentinel address `0`. -/
def resolveParentAddress (s : RefState) (prev : Nat) : Nat :=
  match GetReferral s prev with
  | some p => p.pubKeyId
  | none => 0

/-- `ReferralsViewDB::InsertReferral`: write the referral record, resolve the
inviter (in the store as it stands after that first write), write the parent
index entry, append the new address to the inviter's children list.  The pure
store cannot fail a write, so the C++ `return false` branches are dead and the
operation always succeeds. -/
def InsertReferral (r : Referral) (s : RefState) : RefState :=
  let s1 : RefState :=
    { s with referrals := fun h => if h = r.codeHash then some r else s.referrals h }
  let parentAddress := resolveParentAddress s1 r.previousReferral
  let s2 : RefState :=
    { s1 with parent := fun x => if x = r.pubKeyId then some parentAddress else s1.parent x }
  { s2 with children := fun x =>
      if x = parentAddress then GetChildren s2 parentAddress ++ [r.pubKeyId]
      else s2.children x }

/-- `ReferralsViewDB::RemoveReferral`: erase the referral record, resolve the
inviter (after the erase), erase the parent index entry, remove every
occurrence of the address from the inviter's children list. -/
def RemoveReferral (r : Referral) (s : RefState) : RefState :=
  let s1 : RefState :=
    { s with referrals := fun h => if h = r.codeHash then none else s.referrals h }
  let parentAddress := resolveParentAddress s1 r.previousReferral
  let s2 : RefState :=
    { s1 with parent := fun x => if x = r.pubKeyId then none else s1.parent x }
  { s2 with children := fun x =>
      if x = parentAddress then
        (GetChildren s2 parentAddress).filter (fun c => c ≠ r.pubKeyId)
      else s2.children x }

/-- `MAX_LEVELS = std::numeric_limits<size_t>::max()`, the cycle guard of
`UpdateANV`. -/
def MAX_LEVELS : Nat := 2 ^ 64 - 1

/-- Stamping step of `UpdateANV`: on the first iteration only, the record's
type and origin fields are overwritten with the call's arguments. -/
def stampAnv (addressType startAddress : Nat) (first : Bool) (rec : AnvRec) : AnvRec :=
  if first then { rec with addressType := addressType, origin := startAddress } else rec

/-- `std::get<2>(anv) += change`. -/
def bumpAnv (change : Int) (rec : AnvRec) : AnvRec :=
  { rec with amount := rec.amount + change }

/-- The `while (address && levels < MAX_LEVELS)` loop of
`ReferralsViewDB::UpdateANV`, with `fuel = MAX_LEVELS - levels`.  `none`
models a fatal assertion: either `assert(amount >= 0)` inside the loop, or
the `assert(levels < MAX_LEVELS)` cycle check after it (reached exactly when
the fuel runs out). -/
def updateANVgo (addressType startAddress : Nat) (change : Int) :
    Nat → Bool → Option Nat → RefState → Option RefState
  | 0, _, _, _ => none
  | _ + 1, _, none, s => some s
  | fuel + 1, first, some a, s =>
    let anv2 := bumpAnv change (stampAnv addressType startAddress first (anvRead s a))
    if anv2.amount < 0 then none
    else
      let s1 := writeANV a anv2 s
      updateANVgo addressType startAddress change fuel false (s1.parent a) s1

/-- `ReferralsViewDB::UpdateANV`: push `change` onto the start address and
every ancestor reachable through the parent index. -/
def UpdateANV (addressType : Nat) (startAddress : Nat) (change : Int)
    (s : RefState) : Option RefState :=
  updateANVgo addressType startAddress change MAX_LEVELS true (some startAddress) s

/-- `ReferralsViewDB::GetANV`. -/
def GetANV (s : RefState) (address : Nat) : Option AddressANV :=
  (anvLookup address s.anv).map (fun t => ⟨t.addressType, t.origin, t.amount⟩)

/-- The forward-scan loop of `GetAllANVs` restricted to the `DB_ANV`
namespace (entries under other tags are skipped by the tag filter in the
source and never enter this list). -/
def allANVsScan : List (Nat × AnvRec) → List AddressANV
  | [] => []
  | (_, rec) :: rest => ⟨rec.addressType, rec.origin, rec.amount⟩ :: allANVsScan rest

/-- The forward-scan loop of `GetAllRewardableANVs`:
`if (addressType != 1 && addressType != 2) continue;`. -/
def rewardableScan : List (Nat × AnvRec) → List AddressANV
  | [] => []
  | (_, rec) :: rest =>
    if rec.addressType ≠ 1 ∧ rec.addressType ≠ 2 then rewardableScan rest
    else ⟨rec.addressType, rec.origin, rec.amount⟩ :: rewardableScan rest

/-- `ReferralsViewDB::GetAllANVs`. -/
def GetAllANVs (s : RefState) : List AddressANV :=
  allANVsScan s.anv

/-- `ReferralsViewDB::GetAllRewardableANVs`. -/
def GetAllRewardableANVs (s : RefState) : List AddressANV :=
  rewardableScan s.anv

/-- `MAX_RESERVOIR_SIZE = 1000`. -/
def MAX_RESERVOIR_SIZE : Nat := 1000

/-- `ReferralsViewDB::GetLotteryHeapSize`: the persisted counter, `0` when
absent. -/
def GetLotteryHeapSize (s : RefState) : Nat :=
  s.lotSize.getD 0

/-- `ReferralsViewDB::GetLotteryMinKey`: the key stored at slot `0`. -/
def GetLotteryMinKey (s : RefState) : Option Int :=
  (s.lotVal 0).map Prod.fst

/-- `m_db.Write(make_pair(DB_LOT_VAL, pos), v)`. -/
def writeLotVal (pos : Nat) (v : Int × Nat) (s : RefState) : RefState :=
  { s with lotVal := fun q => if q = pos then some v else s.lotVal q }

/-- The `while (pos != 0)` sift loop of `InsertLotteryAddress`, verbatim from
the source: the parent position is `pos % 2 == 0 ? pos >> 2 : (pos - 1) >> 2`
(a shift by two), a failed read of the parent slot aborts with `false`, and
the loop breaks as soon as `key > parent.key`, after which the value is
written at the final position.  The fuel argument only bounds the recursion;
the caller passes `pos + 1` and the parent position is strictly smaller than
`pos`, so the `fuel = 0` branch is never reached. -/
def siftUp (key : Int) (address : Nat) : Nat → Nat → RefState → Bool × RefState
  | 0, _, s => (false, s)
  | fuel + 1, pos, s =>
    if pos = 0 then (true, writeLotVal pos (key, address) s)
    else
      let parentPos := if pos % 2 = 0 then pos >>> 2 else (pos - 1) >>> 2
      match s.lotVal parentPos with
      | none => (false, s)
      | some parentValue =>
        if key > parentValue.1 then (true, writeLotVal pos (key, address) s)
        else siftUp key address fuel parentPos (writeLotVal pos parentValue s)

/-- `ReferralsViewDB::InsertLotteryAddress`: reject at capacity, persist the
incremented size counter, then sift the new entry up from the next free
position. -/
def InsertLotteryAddress (key : Int) (address : Nat) (s : RefState) :
    Bool × RefState :=
  let pos := GetLotteryHeapSize s
  if pos ≥ MAX_RESERVOIR_SIZE then (false, s)
  else
    let s1 : RefState := { s with lotSize := some (pos + 1) }
    siftUp key address (pos + 1) pos s1

/-- `ReferralsViewDB::AddAddressToLottery`: a missing ANV record is a
no-op returning `false`.  Otherwise the source computes the log-domain
weighted key `(log(rand_uint64) - LOG_MAX_UINT64) / anv` (whose
`assert(rand <= 0)` cannot fire, `log` being monotone and the draw bounded by
`2^64 - 1`), reads the heap size, and then — the reservoir admission being
only a TODO comment in the source — discards both values and returns `true`
without touching the store. -/
def AddAddressToLottery (_randValue : Nat) (address : Nat) (s : RefState) :
    Bool × RefState :=
  match GetANV s address with
  | none => (false, s)
  | some _ =>
    let _heapSize := GetLotteryHeapSize s
    (true, s)

/-- The ancestor chain of `a` through the parent index: `a` first, then each
parent in turn, ending at the first address with no parent entry; `none` when
the walk does not finish within the given fuel. -/
def chainFrom (p : Nat → Option Nat) : Nat → Nat → Option (List Nat)
  | 0, _ => none
  | fuel + 1, a =>
    match p a with
    | none => some [a]
    | some b => (chainFrom p fuel b).map (fun l => a :: l)

/-- The ancestor chain walked by `UpdateANV`, bounded by its `MAX_LEVELS`
cycle guard. -/
def ancChain (s : RefState) (a : Nat) : Option (List Nat) :=
  chainFrom s.parent MAX_LEVELS a

/-- One call in a sequence of `UpdateANV` invocations. -/
structure AnvUpdate where
  addressType : Nat
  startAddress : Nat
  change : Int
deriving Repr, DecidableEq

/-- Run a sequence of `UpdateANV` calls; `none` as soon as one of them dies
on a fatal assertion. -/
def ApplyUpdates : List AnvUpdate → RefState → Option RefState
  | [], s => some s
  | u :: us, s =>
    match UpdateANV u.addressType u.startAddress u.change s with
    | some s' => ApplyUpdates us s'
    | none => none

/-- The caller precondition of one `UpdateANV` call: the start address has a
finite (hence repetition-free) ancestor chain strictly inside the
`MAX_LEVELS` guard, and the running amount of every address the call touches
stays nonnegative. -/
def SafeStep (s : RefState) (u : AnvUpdate) : Prop :=
  ∃ l, ancChain s u.startAddress = some l ∧ l.length < MAX_LEVELS ∧ l.Nodup ∧
    ∀ x ∈ l, 0 ≤ (anvRead s x).amount + u.change

/-- The caller precondition of a whole sequence: every call is a `SafeStep`
in the state it actually runs in. -/
def SafeUpdates (s : RefState) : List AnvUpdate → Prop
  | [] => True
  | u :: us =>
    SafeStep s u ∧
      match UpdateANV u.addressType u.startAddress u.change s with
      | some s' => SafeUpdates s' us
      | none => True

/-! ### Concrete stores used by the witnesses and counterexamples -/

/-- A two-address invitation chain `2 → 1` in the parent index. -/
def sW1 : RefState := { emptyState with parent := fun a => if a = 2 then some 1 else none }

/-- The store `sW1` after `UpdateANV(7, 2, +100)`. -/
def sW1' : RefState := { sW1 with anv := [(2, ⟨7, 2, 100⟩), (1, ⟨0, 0, 100⟩)] }

/-- A store holding one ANV record (address `6`, amount `7`) and an empty
lottery heap. -/
def sC2 : RefState := { emptyState with anv := [(6, ⟨1, 6, 7⟩)] }

/-- The persisted heap after inserting keys `0`, `10`, `20`, `5` (addresses
`1`..`4`) into an empty store. -/
def lotState : RefState :=
  (InsertLotteryAddress 5 4
    (InsertLotteryAddress 20 3
      (InsertLotteryAddress 10 2
        (InsertLotteryAddress 0 1 emptyState).2).2).2).2

/-- A root referral whose inviter code `7` is unknown. -/
def rC6a : Referral := ⟨5, 99, 7, 1⟩

/-- A store already holding the referral `rC6a` under code hash `5`. -/
def sC6 : RefState := InsertReferral rC6a emptyState

/-- A leaf referral whose code hash `5` collides with the stored `rC6a`. -/
def rC6 : Referral := ⟨5, 10, 8, 1⟩

/-- Parent referral for the round-trip witness. -/
def pW5 : Referral := ⟨3, 20, 9, 1⟩

/-- A store holding `pW5`. -/
def sW5 : RefState := InsertReferral pW5 emptyState

/-- A referral whose `previousReferral` resolves to `pW5`. -/
def rW5 : Referral := ⟨4, 21, 3, 1⟩

/-- A root referral for the sentinel witness: inviter code `12` unknown. -/
def rW10 : Referral := ⟨11, 30, 12, 2⟩

/-- A three-address invitation chain `3 → 2 → 1` in the parent index. -/
def sW7 : RefState :=
  { emptyState with parent := fun a => if a = 3 then some 2 else if a = 2 then some 1 else none }

/-- The update sequence of the spec scenario: credit `100` at `3`, then `50`
at `2`. -/
def usW7 : List AnvUpdate := [⟨1, 3, 100⟩, ⟨1, 2, 50⟩]

/-! ### Basic lemmas about the ANV namespace and the loop helpers -/

theorem anvLookup_upsert_same (k : Nat) (v : AnvRec) (l : List (Nat × AnvRec)) :
    anvLookup k (upsertAnv k v l) = some v := by
  induction l with
  | nil => simp [anvLookup, upsertAnv]
  | cons e rest ih =>
    obtain ⟨k', v'⟩ := e
    by_cases h : k' = k <;> simp [anvLookup, upsertAnv, h, ih]

theorem anvLookup_upsert_other (k x : Nat) (v : AnvRec) (l : List (Nat × AnvRec))
    (h : x ≠ k) : anvLookup x (upsertAnv k v l) = anvLookup x l := by
  induction l with
  | nil => simp [anvLookup, upsertAnv, Ne.symm h]
  | cons e rest ih =>
    obtain ⟨k', v'⟩ := e
    by_cases h1 : k' = k
    · subst h1
      simp [anvLookup, upsertAnv, Ne.symm h]
    · by_cases h2 : k' = x <;> simp [anvLookup, upsertAnv, h1, h2, h, ih]

@[simp] theorem writeANV_referrals (a : Nat) (rec : AnvRec) (s : RefState) :
    (writeANV a rec s).referrals = s.referrals := rfl

@[simp] theorem writeANV_parent (a : Nat) (rec : AnvRec) (s : RefState) :
    (writeANV a rec s).parent = s.parent := rfl

@[simp] theorem writeANV_children (a : Nat) (rec : AnvRec) (s : RefState) :
    (writeANV a rec s).children = s.children := rfl

@[simp] theorem writeANV_lotSize (a : Nat) (rec : AnvRec) (s : RefState) :
    (writeANV a rec s).lotSize = s.lotSize := rfl

@[simp] theorem writeANV_lotVal (a : Nat) (rec : AnvRec) (s : RefState) :
    (writeANV a rec s).lotVal = s.lotVal := rfl

@[simp] theorem anvRead_writeANV_same (a : Nat) (rec : AnvRec) (s : RefState) :
    anvRead (writeANV a rec s) a = rec := by
  simp [anvRead, writeANV, anvLookup_upsert_same]

theorem anvRead_writeANV_other (a x : Nat) (rec : AnvRec) (s : RefState)
    (h : x ≠ a) : anvRead (writeANV a rec s) x = anvRead s x := by
  simp [anvRead, writeANV, anvLookup_upsert_other _ _ _ _ h]

theorem anvLookup_writeANV_other (a x : Nat) (rec : AnvRec) (s : RefState)
    (h : x ≠ a) : anvLookup x (writeANV a rec s).anv = anvLookup x s.anv := by
  simp [writeANV, anvLookup_upsert_other _ _ _ _ h]

@[simp] theorem stampAnv_amount (t a0 : Nat) (f : Bool) (r : AnvRec) :
    (stampAnv t a0 f r).amount = r.amount := by
  cases f <;> simp [stampAnv]

theorem stampAnv_addressType (t a0 : Nat) (f : Bool) (r : AnvRec) :
    (stampAnv t a0 f r).addressType = if f then t else r.addressType := by
  cases f <;> simp [stampAnv]

theorem stampAnv_origin (t a0 : Nat) (f : Bool) (r : AnvRec) :
    (stampAnv t a0 f r).origin = if f then a0 else r.origin := by
  cases f <;> simp [stampAnv]

@[simp] theorem bumpAnv_amount (c : Int) (r : AnvRec) :
    (bumpAnv c r).amount = r.amount + c := rfl

@[simp] theorem bumpAnv_addressType (c : Int) (r : AnvRec) :
    (bumpAnv c r).addressType = r.addressType := rfl

@[simp] theorem bumpAnv_origin (c : Int) (r : AnvRec) :
    (bumpAnv c r).origin = r.origin := rfl

/-- A terminating ancestor walk is insensitive to raising (or, down to its
length, lowering) the fuel. -/
theorem chainFrom_mono (p : Nat → Option Nat) :
    ∀ (fuel : Nat) (a : Nat) (l : List Nat), chainFrom p fuel a = some l →
      ∀ fuel', l.length ≤ fuel' → chainFrom p fuel' a = some l := by
  intro fuel
  induction fuel with
  | zero => intro a l h; simp [chainFrom] at h
  | succ n ih =>
    intro a l h fuel' hlen
    rw [chainFrom] at h
    split at h
    next hpa =>
      obtain rfl : [a] = l := by simpa using h
      obtain ⟨m, rfl⟩ : ∃ m, fuel' = m + 1 := by
        cases fuel' with
        | zero => simp at hlen
        | succ m => exact ⟨m, rfl⟩
      simp [chainFrom, hpa]
    next b hpa =>
      obtain ⟨l', hcb, rfl⟩ : ∃ l', chainFrom p n b = some l' ∧ l = a :: l' := by
        cases hcb : chainFrom p n b with
        | none => rw [hcb] at h; simp at h
        | some l' =>
          rw [hcb] at h
          exact ⟨l', rfl, by simpa using h.symm⟩
      obtain ⟨m, rfl⟩ : ∃ m, fuel' = m + 1 := by
        cases fuel' with
        | zero => simp at hlen
        | succ m => exact ⟨m, rfl⟩
      have hm : l'.length ≤ m := by simpa using hlen
      simp [chainFrom, hpa, ih b l' hcb m hm]

theorem anvRead_eq_of_lookup_eq {s1 s2 : RefState} {x : Nat}
    (h : anvLookup x s1.anv = anvLookup x s2.anv) : anvRead s1 x = anvRead s2 x := by
  simp [anvRead, h]

/-- Full analysis of a successful run of the `UpdateANV` loop: the run only
rewrites the `DB_ANV` namespace, adds `change` exactly once to every address
on the ancestor chain, stamps type/origin on the first visited address only,
and leaves every other ANV record untouched. -/
theorem updateANVgo_run (t a0 : Nat) (v : Int) :
    ∀ (fuel : Nat) (a : Nat) (l : List Nat) (first : Bool) (s s' : RefState),
      chainFrom s.parent fuel a = some l →
      l.Nodup →
      updateANVgo t a0 v fuel first (some a) s = some s' →
      s'.referrals = s.referrals ∧
      s'.parent = s.parent ∧
      s'.children = s.children ∧
      s'.lotSize = s.lotSize ∧
      s'.lotVal = s.lotVal ∧
      (∀ x, x ∉ l → anvLookup x s'.anv = anvLookup x s.anv) ∧
      (∀ x ∈ l, (anvRead s' x).amount = (anvRead s x).amount + v) ∧
      (∀ x ∈ l, x ≠ a →
        (anvRead s' x).addressType = (anvRead s x).addressType ∧
        (anvRead s' x).origin = (anvRead s x).origin) ∧
      (anvRead s' a).addressType = (if first then t else (anvRead s a).addressType) ∧
      (anvRead s' a).origin = (if first then a0 else (anvRead s a).origin) := by
  intro fuel
  induction fuel with
  | zero => intro a l first s s' hchain; simp [chainFrom] at hchain
  | succ n ih =>
    intro a l first s s' hchain hnodup hrun
    rw [updateANVgo] at hrun
    simp only [writeANV_parent] at hrun
    rw [chainFrom] at hchain
    split at hrun
    · simp at hrun
    split at hchain
    next hpa =>
      obtain rfl : l = [a] := by simpa using hchain.symm
      rw [hpa] at hrun
      cases n with
      | zero => simp [updateANVgo] at hrun
      | succ m =>
        rw [updateANVgo] at hrun
        obtain rfl : writeANV a (bumpAnv v (stampAnv t a0 first (anvRead s a))) s = s' := by
          simpa using hrun
        refine ⟨rfl, rfl, rfl, rfl, rfl, ?_, ?_, ?_, ?_, ?_⟩
        · intro x hx
          exact anvLookup_writeANV_other a x _ s (by simpa using hx)
        · intro x hx
          obtain rfl : x = a := by simpa using hx
          simp
        · intro x hx hxa
          obtain rfl : x = a := by simpa using hx
          exact absurd rfl hxa
        · simp [stampAnv_addressType]
        · simp [stampAnv_origin]
    next b hpa =>
      obtain ⟨l', hcb, rfl⟩ : ∃ l', chainFrom s.parent n b = some l' ∧ l = a :: l' := by
        cases hcb : chainFrom s.parent n b with
        | none => rw [hcb] at hchain; simp at hchain
        | some l' =>
          rw [hcb] at hchain
          exact ⟨l', rfl, by simpa using hchain.symm⟩
      have ha : a ∉ l' := by simp at hnodup; exact hnodup.1
      have hnodup' : l'.Nodup := by simp at hnodup; exact hnodup.2
      rw [hpa] at hrun
      have hchain1 : chainFrom (writeANV a (bumpAnv v (stampAnv t a0 first (anvRead s a))) s).parent n b = some l' := by
        simpa using hcb
      obtain ⟨H1, H2, H3, H4, H5, H6, H7, H8, H9, H10⟩ :=
        ih b l' false (writeANV a (bumpAnv v (stampAnv t a0 first (anvRead s a))) s) s' hchain1 hnodup' hrun
      have hla : anvRead s' a = bumpAnv v (stampAnv t a0 first (anvRead s a)) :=
        (anvRead_eq_of_lookup_eq (H6 a ha)).trans (anvRead_writeANV_same a _ s)
      refine ⟨?_, ?_, ?_, ?_, ?_, ?_, ?_, ?_, ?_, ?_⟩
      · exact H1.trans (writeANV_referrals a _ s)
      · exact H2.trans (writeANV_parent a _ s)
      · exact H3.trans (writeANV_children a _ s)
      · exact H4.trans (writeANV_lotSize a _ s)
      · exact H5.trans (writeANV_lotVal a _ s)
      · intro x hx
        have hxa : x ≠ a := by simp at hx; exact hx.1
        have hxl : x ∉ l' := by simp at hx; exact hx.2
        exact (H6 x hxl).trans (anvLookup_writeANV_other a x _ s hxa)
      · intro x hx
        rcases List.mem_cons.mp hx with rfl | hxl
        · rw [hla]; simp
        · have hxa : x ≠ a := fun hxe => ha (hxe ▸ hxl)
          rw [H7 x hxl, anvRead_writeANV_other a x _ s hxa]
      · intro x hx hxa
        have hxl : x ∈ l' := by
          rcases List.mem_cons.mp hx with rfl | hxl
          · exact absurd rfl hxa
          · exact hxl
        by_cases hxb : x = b
        · subst hxb
          constructor
          · rw [H9, anvRead_writeANV_other a x _ s hxa]
            simp
          · rw [H10, anvRead_writeANV_other a x _ s hxa]
            simp
        · obtain ⟨e1, e2⟩ := H8 x hxl hxb
          exact ⟨e1.trans (congrArg AnvRec.addressType (anvRead_writeANV_other a x _ s hxa)),
                 e2.trans (congrArg AnvRec.origin (anvRead_writeANV_other a x _ s hxa))⟩
      · rw [hla]; simp [stampAnv_addressType]
      · rw [hla]; simp [stampAnv_origin]

/-- The start address's record after a successful run: exactly the stamped
and bumped record the loop wrote on its first iteration. -/
theorem updateANVgo_run_head (t a0 : Nat) (v : Int) :
    ∀ (fuel : Nat) (a : Nat) (l : List Nat) (first : Bool) (s s' : RefState),
      chainFrom s.parent fuel a = some l →
      l.Nodup →
      updateANVgo t a0 v fuel first (some a) s = some s' →
      anvLookup a s'.anv = some (bumpAnv v (stampAnv t a0 first (anvRead s a))) := by
  intro fuel
  induction fuel with
  | zero => intro a l first s s' hchain; simp [chainFrom] at hchain
  | succ n ih =>
    intro a l first s s' hchain hnodup hrun
    rw [updateANVgo] at hrun
    simp only [writeANV_parent] at hrun
    rw [chainFrom] at hchain
    split at hrun
    · simp at hrun
    split at hchain
    next hpa =>
      rw [hpa] at hrun
      cases n with
      | zero => simp [updateANVgo] at hrun
      | succ m =>
        rw [updateANVgo] at hrun
        obtain rfl : writeANV a (bumpAnv v (stampAnv t a0 first (anvRead s a))) s = s' := by
          simpa using hrun
        simp [writeANV, anvLookup_upsert_same]
    next b hpa =>
      obtain ⟨l', hcb, rfl⟩ : ∃ l', chainFrom s.parent n b = some l' ∧ l = a :: l' := by
        cases hcb : chainFrom s.parent n b with
        | none => rw [hcb] at hchain; simp at hchain
        | some l' =>
          rw [hcb] at hchain
          exact ⟨l', rfl, by simpa using hchain.symm⟩
      have ha : a ∉ l' := by simp at hnodup; exact hnodup.1
      have hnodup' : l'.Nodup := by simp at hnodup; exact hnodup.2
      rw [hpa] at hrun
      have hchain1 : chainFrom (writeANV a (bumpAnv v (stampAnv t a0 first (anvRead s a))) s).parent n b = some l' := by
        simpa using hcb
      obtain ⟨_, _, _, _, _, H6, _, _, _, _⟩ :=
        updateANVgo_run t a0 v n b l' false _ s' hchain1 hnodup' hrun
      rw [H6 a ha]
      simp [writeANV, anvLookup_upsert_same]

/-- When the running amounts along a finite, repetition-free ancestor chain
stay nonnegative, the `UpdateANV` loop hits no assertion and succeeds. -/
theorem updateANVgo_ok (t a0 : Nat) (v : Int) :
    ∀ (fuel : Nat) (a : Nat) (l : List Nat) (first : Bool) (s : RefState),
      chainFrom s.parent fuel a = some l →
      l.Nodup →
      (∀ x ∈ l, 0 ≤ (anvRead s x).amount + v) →
      ∃ s', updateANVgo t a0 v (fuel + 1) first (some a) s = some s' := by
  intro fuel
  induction fuel with
  | zero => intro a l first s hchain; simp [chainFrom] at hchain
  | succ n ih =>
    intro a l first s hchain hnodup hnn
    rw [chainFrom] at hchain
    have hneg : ¬ (bumpAnv v (stampAnv t a0 first (anvRead s a))).amount < 0 := by
      have h0 : 0 ≤ (anvRead s a).amount + v := by
        apply hnn a
        split at hchain
        · obtain rfl : l = [a] := by simpa using hchain.symm
          simp
        next b hpa =>
          cases hcb : chainFrom s.parent n b with
          | none => rw [hcb] at hchain; simp at hchain
          | some l' =>
            rw [hcb] at hchain
            obtain rfl : l = a :: l' := by simpa using hchain.symm
            simp
      simp only [bumpAnv_amount, stampAnv_amount]
      omega
    split at hchain
    next hpa =>
      refine ⟨writeANV a (bumpAnv v (stampAnv t a0 first (anvRead s a))) s, ?_⟩
      rw [updateANVgo]
      simp only [writeANV_parent, hpa]
      rw [if_neg hneg]
      rfl
    next b hpa =>
      obtain ⟨l', hcb, rfl⟩ : ∃ l', chainFrom s.parent n b = some l' ∧ l = a :: l' := by
        cases hcb : chainFrom s.parent n b with
        | none => rw [hcb] at hchain; simp at hchain
        | some l' =>
          rw [hcb] at hchain
          exact ⟨l', rfl, by simpa using hchain.symm⟩
      have ha : a ∉ l' := by simp at hnodup; exact hnodup.1
      have hnodup' : l'.Nodup := by simp at hnodup; exact hnodup.2
      have hchain1 : chainFrom (writeANV a (bumpAnv v (stampAnv t a0 first (anvRead s a))) s).parent n b = some l' := by
        simpa using hcb
      have hnn1 : ∀ x ∈ l', 0 ≤ (anvRead (writeANV a (bumpAnv v (stampAnv t a0 first (anvRead s a))) s) x).amount + v := by
        intro x hx
        rw [anvRead_writeANV_other a x _ s (fun he => ha (he ▸ hx))]
        exact hnn x (List.mem_cons_of_mem _ hx)
      obtain ⟨s', hs'⟩ := ih b l' false _ hchain1 hnodup' hnn1
      refine ⟨s', ?_⟩
      rw [updateANVgo]
      simp only [writeANV_parent, hpa]
      rw [if_neg hneg]
      exact hs'

/-- A `SafeStep` caller precondition makes the `UpdateANV` call succeed. -/
theorem UpdateANV_ok (u : AnvUpdate) (s : RefState) (hs : SafeStep s u) :
    ∃ s', UpdateANV u.addressType u.startAddress u.change s = some s' := by
  obtain ⟨l, hchain, hlen, hnodup, hnn⟩ := hs
  have hchain' : chainFrom s.parent (MAX_LEVELS - 1) u.startAddress = some l :=
    chainFrom_mono s.parent MAX_LEVELS u.startAddress l hchain (MAX_LEVELS - 1) (by omega)
  obtain ⟨s', hs'⟩ :=
    updateANVgo_ok u.addressType u.startAddress u.change (MAX_LEVELS - 1)
      u.startAddress l true s hchain' hnodup hnn
  refine ⟨s', ?_⟩
  have hM : MAX_LEVELS - 1 + 1 = MAX_LEVELS := by norm_num [MAX_LEVELS]
  rw [UpdateANV, ← hM]
  exact hs'

/-- Claim C1: for every address `a` with an acyclic (finite and
repetition-free) ancestor chain `a :: anc` and every change `v`, a successful
`UpdateANV t a v` leaves `a`'s record readable as amount increased by `v` and
stamped with the given address type `t` and origin `a`; it increases each
ancestor's amount by `v` exactly once while leaving the ancestor's stored
type and origin as they were (records are read with the source's zero-valued
default for absent keys); and it leaves the ANV record of every other address
unchanged. -/
theorem UpdateANV_propagates (t a : Nat) (v : Int) (s s' : RefState) (anc : List Nat)
    (hchain : ancChain s a = some (a :: anc))
    (hnodup : (a :: anc).Nodup)
    (hrun : UpdateANV t a v s = some s') :
    GetANV s' a = some ⟨t, a, (anvRead s a).amount + v⟩ ∧
    (∀ x ∈ anc, (anvRead s' x).amount = (anvRead s x).amount + v ∧
      (anvRead s' x).addressType = (anvRead s x).addressType ∧
      (anvRead s' x).origin = (anvRead s x).origin) ∧
    (∀ x, x ≠ a → x ∉ anc → GetANV s' x = GetANV s x) := by
  have hchain' : chainFrom s.parent MAX_LEVELS a = some (a :: anc) := hchain
  have hrun' : updateANVgo t a v MAX_LEVELS true (some a) s = some s' := hrun
  obtain ⟨_, _, _, _, _, H6, H7, H8, _, _⟩ :=
    updateANVgo_run t a v MAX_LEVELS a (a :: anc) true s s' hchain' hnodup hrun'
  have hhead := updateANVgo_run_head t a v MAX_LEVELS a (a :: anc) true s s' hchain' hnodup hrun'
  have ha : a ∉ anc := (List.nodup_cons.mp hnodup).1
  refine ⟨?_, ?_, ?_⟩
  · rw [GetANV, hhead]
    simp [stampAnv, bumpAnv]
  · intro x hx
    have hxa : x ≠ a := fun he => ha (he ▸ hx)
    exact ⟨H7 x (List.mem_cons_of_mem _ hx),
           (H8 x (List.mem_cons_of_mem _ hx) hxa).1,
           (H8 x (List.mem_cons_of_mem _ hx) hxa).2⟩
  · intro x hxa hxanc
    have hx : x ∉ a :: anc := by simp [hxa, hxanc]
    rw [GetANV, GetANV, H6 x hx]

/-- Witness for C1 on the two-address chain `2 → 1`: crediting `100` at `2`
stamps and credits `2`, credits the ancestor `1`, and leaves the unrelated
address `9` untouched. -/
theorem UpdateANV_propagates_witness :
    GetANV sW1' 2 = some ⟨7, 2, (anvRead sW1 2).amount + 100⟩ ∧
    (anvRead sW1' 1).amount = (anvRead sW1 1).amount + 100 ∧
    GetANV sW1' 9 = GetANV sW1 9 := by
  have h := UpdateANV_propagates 7 2 100 sW1 sW1' [1] (by decide) (by decide) rfl
  exact ⟨h.1, (h.2.1 1 (by decide)).1, h.2.2 9 (by decide) (by decide)⟩

/-- Claim C7: a sequence of `UpdateANV` calls whose running per-address
amounts stay nonnegative at every touched address (and whose start addresses
have acyclic ancestor chains), run from a store whose persisted amounts are
all nonnegative, never trips the fatal `assert(amount >= 0)`: every call
succeeds and every persisted amount stays nonnegative. -/
theorem UpdateANV_safety :
    ∀ (us : List AnvUpdate) (s : RefState),
      (∀ x, 0 ≤ (anvRead s x).amount) →
      SafeUpdates s us →
      ∃ s', ApplyUpdates us s = some s' ∧ ∀ x, 0 ≤ (anvRead s' x).amount := by
  intro us
  induction us with
  | nil => intro s hnn _; exact ⟨s, rfl, hnn⟩
  | cons u us ih =>
    intro s hnn hsafe
    rw [SafeUpdates] at hsafe
    obtain ⟨hstep, hrest⟩ := hsafe
    obtain ⟨s1, hs1⟩ := UpdateANV_ok u s hstep
    obtain ⟨l, hchain, _, hnodup, hnnl⟩ := hstep
    have hchain' : chainFrom s.parent MAX_LEVELS u.startAddress = some l := hchain
    have hs1' : updateANVgo u.addressType u.startAddress u.change MAX_LEVELS true
        (some u.startAddress) s = some s1 := hs1
    obtain ⟨_, _, _, _, _, H6, H7, _, _, _⟩ :=
      updateANVgo_run u.addressType u.startAddress u.change MAX_LEVELS
        u.startAddress l true s s1 hchain' hnodup hs1'
    have hnn1 : ∀ x, 0 ≤ (anvRead s1 x).amount := by
      intro x
      by_cases hx : x ∈ l
      · rw [H7 x hx]; exact hnnl x hx
      · rw [anvRead_eq_of_lookup_eq (H6 x hx)]; exact hnn x
    have hrest1 : SafeUpdates s1 us := by rw [hs1] at hrest; exact hrest
    obtain ⟨s', hs', hnn'⟩ := ih s1 hnn1 hrest1
    refine ⟨s', ?_, hnn'⟩
    rw [ApplyUpdates, hs1]
    exact hs'

/-- Witness for C7: the spec scenario `UpdateANV(1, 3, +100)` then
`UpdateANV(1, 2, +50)` on the chain `3 → 2 → 1` runs to completion. -/
theorem UpdateANV_safety_witness : (ApplyUpdates usW7 sW7).isSome = true := by
  have hsafe : SafeUpdates sW7 usW7 := by
    refine ⟨⟨[3, 2, 1], by decide, by decide, by decide, by decide⟩, ?_⟩
    exact ⟨⟨[2, 1], by decide, by decide, by decide, by decide⟩, trivial⟩
  obtain ⟨s', h1, _⟩ := UpdateANV_safety usW7 sW7 (fun _ => le_refl 0) hsafe
  rw [h1]
  rfl

/-- Claim C5: after `InsertReferral r`, the referral reads back under its
code hash; and whenever `r.previousReferral` resolves (in the store the call
actually consults, i.e. after the referral record is written) to a stored
parent referral `p`, the new address's referrer is `p.pubKeyId` and the new
address appears in `p.pubKeyId`'s children list. -/
theorem InsertReferral_roundtrip (r : Referral) (s : RefState) :
    GetReferral (InsertReferral r s) r.codeHash = some r ∧
    ∀ p : Referral, GetReferral (InsertReferral r s) r.previousReferral = some p →
      GetReferrer (InsertReferral r s) r.pubKeyId = some p.pubKeyId ∧
      r.pubKeyId ∈ GetChildren (InsertReferral r s) p.pubKeyId := by
  constructor
  · simp [InsertReferral, GetReferral]
  · intro p hp
    simp only [InsertReferral, GetReferral, GetReferrer, GetChildren,
      resolveParentAddress] at hp ⊢
    rw [hp]
    simp

/-- Witness for C5: inserting `rW5` (invited through code `3`) into a store
holding `pW5` (public key `20`) links `21` under `20`. -/
theorem InsertReferral_roundtrip_witness :
    GetReferral (InsertReferral rW5 sW5) rW5.codeHash = some rW5 ∧
    GetReferrer (InsertReferral rW5 sW5) rW5.pubKeyId = some pW5.pubKeyId ∧
    rW5.pubKeyId ∈ GetChildren (InsertReferral rW5 sW5) pW5.pubKeyId := by
  have h := InsertReferral_roundtrip rW5 sW5
  exact ⟨h.1, (h.2 pW5 (by decide)).1, (h.2 pW5 (by decide)).2⟩

/-- Claim C10: inserting a referral whose `previousReferral` matches no
stored referral files it under the shared default-constructed sentinel
address `0`: its referrer reads back as `some 0` (not `none`),
`WalletIdExists` holds for it, and it is appended to the children list keyed
by the sentinel. -/
theorem InsertReferral_root_sentinel (r : Referral) (s : RefState)
    (hmiss : GetReferral s r.previousReferral = none)
    (hne : r.previousReferral ≠ r.codeHash) :
    GetReferrer (InsertReferral r s) r.pubKeyId = some 0 ∧
    WalletIdExists (InsertReferral r s) r.pubKeyId = true ∧
    r.pubKeyId ∈ GetChildren (InsertReferral r s) 0 := by
  rw [GetReferral] at hmiss
  simp only [InsertReferral, GetReferrer, WalletIdExists, GetChildren,
    resolveParentAddress, GetReferral]
  rw [if_neg hne, hmiss]
  simp

/-- Witness for C10: inserting the root referral `rW10` (inviter code `12`
unknown) into the empty store. -/
theorem InsertReferral_root_sentinel_witness :
    GetReferrer (InsertReferral rW10 emptyState) rW10.pubKeyId = some 0 ∧
    WalletIdExists (InsertReferral rW10 emptyState) rW10.pubKeyId = true ∧
    rW10.pubKeyId ∈ GetChildren (InsertReferral rW10 emptyState) 0 :=
  InsertReferral_root_sentinel rW10 emptyState (by decide) (by decide)

/-- Counterexample to claim C6 as stated: `rC6` is a leaf (no descendants)
whose public key `10` occurs in no children list, yet because its code hash
`5` collides with the stored referral `rC6a`, inserting and then removing it
erases the old record instead of restoring it.  (The store `sC6` is itself
reachable: it is `InsertReferral rC6a emptyState`.) -/
theorem RemoveReferral_not_inverse :
    (∀ x, rC6.pubKeyId ∉ GetChildren sC6 x) ∧
    GetChildren sC6 rC6.pubKeyId = [] ∧
    GetReferral sC6 rC6.codeHash = some rC6a ∧
    GetReferral (RemoveReferral rC6 (InsertReferral rC6 sC6)) rC6.codeHash = none := by
  refine ⟨?_, by decide, by decide, by decide⟩
  intro x
  have h : GetChildren sC6 x = if x = 0 then [99] else [] := rfl
  rw [h]
  split <;> simp [rC6]

/-- Claim C6 amended: removal inverts insertion for a leaf referral that is
genuinely new to the store — its code hash not already stored, its public
key without a parent-index entry and absent from every children list, and
its `previousReferral` distinct from its own code hash. -/
theorem RemoveReferral_inverse (r : Referral) (s : RefState)
    (hfresh : GetReferral s r.codeHash = none)
    (hpar : GetReferrer s r.pubKeyId = none)
    (hchild : ∀ x, r.pubKeyId ∉ GetChildren s x)
    (_hleaf : GetChildren s r.pubKeyId = [])
    (hne : r.previousReferral ≠ r.codeHash) :
    GetReferral (RemoveReferral r (InsertReferral r s)) r.codeHash =
      GetReferral s r.codeHash ∧
    GetReferrer (RemoveReferral r (InsertReferral r s)) r.pubKeyId =
      GetReferrer s r.pubKeyId ∧
    GetChildren (RemoveReferral r (InsertReferral r s))
        (resolveParentAddress s r.previousReferral) =
      GetChildren s (resolveParentAddress s r.previousReferral) := by
  rw [GetReferral] at hfresh
  rw [GetReferrer] at hpar
  refine ⟨?_, ?_, ?_⟩
  · simp [RemoveReferral, InsertReferral, GetReferral, hfresh]
  · simp [RemoveReferral, InsertReferral, GetReferrer, hpar]
  · have hkeep : (s.children (resolveParentAddress s r.previousReferral)).filter
        (fun c => c ≠ r.pubKeyId) =
        s.children (resolveParentAddress s r.previousReferral) := by
      rw [List.filter_eq_self]
      intro b hb
      have hbne : b ≠ r.pubKeyId := fun he => hchild _ (he ▸ hb)
      simpa using hbne
    simp only [RemoveReferral, InsertReferral, GetChildren, GetReferral,
      resolveParentAddress]
    simp only [if_neg hne]
    simp [hkeep]
    intro b hb
    exact fun he => hchild _ (he ▸ hb)

/-- Witness for the amended C6: inserting and removing the fresh leaf `rW5`
over the store `sW5` restores all three observations. -/
theorem RemoveReferral_inverse_witness :
    GetReferral (RemoveReferral rW5 (InsertReferral rW5 sW5)) rW5.codeHash =
      GetReferral sW5 rW5.codeHash ∧
    GetReferrer (RemoveReferral rW5 (InsertReferral rW5 sW5)) rW5.pubKeyId =
      GetReferrer sW5 rW5.pubKeyId ∧
    GetChildren (RemoveReferral rW5 (InsertReferral rW5 sW5))
        (resolveParentAddress sW5 rW5.previousReferral) =
      GetChildren sW5 (resolveParentAddress sW5 rW5.previousReferral) :=
  RemoveReferral_inverse rW5 sW5 (by decide) (by decide)
    (fun x => by
      have h : GetChildren sW5 x = if x = 0 then [20] else [] := rfl
      rw [h]
      split <;> simp [rW5])
    (by decide) (by decide)

/-- Claim C8: the rewardable scan is exactly the type-1-or-2 filter of the
full scan, in the same order. -/
theorem GetAllRewardableANVs_eq_filter (s : RefState) :
    GetAllRewardableANVs s =
      (GetAllANVs s).filter (fun e => e.addressType == 1 || e.addressType == 2) := by
  rw [GetAllRewardableANVs, GetAllANVs]
  induction s.anv with
  | nil => rfl
  | cons e rest ih =>
    obtain ⟨k, rec⟩ := e
    rw [rewardableScan, allANVsScan]
    by_cases h1 : rec.addressType = 1
    · simp [h1, List.filter, ih]
    · by_cases h2 : rec.addressType = 2
      · simp [h1, h2, List.filter, ih]
      · have hb : (rec.addressType == 1 || rec.addressType == 2) = false := by
          simp [h1, h2]
        simp [h1, h2, List.filter, hb, ih]

/-- Claim C9: when the address has an ANV record, `AddAddressToLottery`
returns `true` and the store — heap size counter, every heap slot, and every
other table — is exactly the input store. -/
theorem AddAddressToLottery_frame (seed a : Nat) (s : RefState)
    (h : (GetANV s a).isSome = true) :
    AddAddressToLottery seed a s = (true, s) := by
  rw [AddAddressToLottery]
  cases hv : GetANV s a with
  | none => rw [hv] at h; simp at h
  | some v => rfl

/-- Witness for C9: address `6` holds an ANV record in `sC2`; the call
returns `true` with the store untouched. -/
theorem AddAddressToLottery_frame_witness :
    AddAddressToLottery 42 6 sC2 = (true, sC2) :=
  AddAddressToLottery_frame 42 6 sC2 (by decide)

/-- Claim C2 (divergence witness): in `sC2` address `6` has an ANV record
and the heap holds `0 < 1000` entries, yet `AddAddressToLottery` returns
`true` with the heap still empty — the reservoir admission described by the
claim (and by the source's own TODO comment) never runs. -/
theorem AddAddressToLottery_no_admission :
    (GetANV sC2 6).isSome = true ∧
    GetLotteryHeapSize sC2 = 0 ∧
    AddAddressToLottery 42 6 sC2 = (true, sC2) ∧
    GetLotteryHeapSize (AddAddressToLottery 42 6 sC2).2 = 0 ∧
    (AddAddressToLottery 42 6 sC2).2.lotVal 0 = none :=
  ⟨rfl, rfl, rfl, rfl, rfl⟩

/-- Claim C3 (divergence witness): inserting keys `0, 10, 20, 5` from an
empty store, the fourth insert lands key `5` at position `3` after comparing
it only against slot `0` — the source's parent formula is
`pos % 2 == 0 ? pos >> 2 : (pos - 1) >> 2`, a division by four — although
the standard 0-based parent of position `3` is `(3 - 1) / 2 = 1`, whose key
`10` is greater than `5` and would have forced a swap. -/
theorem InsertLotteryAddress_parent_formula :
    lotState.lotVal 1 = some (10, 2) ∧
    lotState.lotVal 3 = some (5, 4) ∧
    (3 - 1) / 2 = 1 ∧
    ¬ ((10 : Int) ≤ 5) := by
  refine ⟨by decide, by decide, by decide, by decide⟩

/-- Claim C4 (divergence witness): after the successful insert sequence
`0, 10, 20, 5` from an empty store, position `3` holds key `5` while its
standard 0-based parent position `(3 - 1) / 2 = 1` holds key `10`: the
claimed min-heap invariant over the persisted slots is violated. -/
theorem lotteryHeap_invariant_violated :
    GetLotteryHeapSize lotState = 4 ∧
    (lotState.lotVal ((3 - 1) / 2)).map Prod.fst = some 10 ∧
    (lotState.lotVal 3).map Prod.fst = some 5 ∧
    ¬ ((10 : Int) ≤ 5) := by
  refine ⟨by decide, by decide, by decide, by decide⟩

